import Mathlib

/-!
Verification of the dataset reconciliation engine of
src/dataset_comparison_app.py.

The engine consists of two functions:

* compare_datasets (lines 45-85): copies the two input frames, renames the
  columns of the second frame with the user mapping (pandas rename, whose
  dict maps old name to new name; the source passes the left-to-right
  mapping as-is), performs a full outer pandas merge on the mapping keys
  with indicator=True, relabels the indicator column with the file names,
  and returns (is_identical, mismatched).  Any exception raised inside the
  body (for instance a KeyError from merge when a join key is absent, or
  the error raised by merge on an empty key list) is caught; the handler
  displays a message and returns (False, empty frame).
* get_matching_columns (lines 87-92): the three-way partition of the two
  column-name sets.

The embedding below models pandas frames as lists of named columns over a
tagged cell type.  Missing values (NaN) are a distinguished cell; pandas
merge matches NaN join keys against each other, so join-key equality is
plain structural equality on cells.  The merged frame is modelled as a
list of rows tagged with the merge indicator; the string labels derived
from the file names are modelled verbatim.
-/

namespace DatasetDiff

/-- Cell values of a loaded CSV column: text, number, or missing (NaN). -/
inductive Cell where
  | str (s : String)
  | num (n : Int)
  | missing
deriving DecidableEq, Repr

/-- A pandas DataFrame: named columns and positional rows. -/
structure DF where
  cols : List String
  rows : List (List Cell)
deriving DecidableEq, Repr

/-- The column_mapping dict of the source: ordered entries
left-column-name to right-column-name, keys unique. -/
abbrev ColumnMapping := List (String × String)

/-- Keys of the mapping (list(column_mapping.keys()) at line 59). -/
def mkeys (m : ColumnMapping) : List String := m.map Prod.fst

/-- Values of the mapping. -/
def mvals (m : ColumnMapping) : List String := m.map Prod.snd

/-- Mapping with the key and value roles of every entry swapped. -/
def invert (m : ColumnMapping) : ColumnMapping := m.map (fun p => (p.2, p.1))

/-- Name rewriting performed by pandas df.rename(columns=m): a column
whose name is a key of the dict is renamed to the corresponding value,
all other columns are untouched, keys absent from the frame are ignored. -/
def rn (m : ColumnMapping) (c : String) : String := (List.lookup c m).getD c

/-- Model of df2_copy.rename(columns=column_mapping) at line 53. -/
def rename (df : DF) (m : ColumnMapping) : DF := ⟨df.cols.map (rn m), df.rows⟩

/-- Position of a column label in a frame (label-based selection). -/
def idx (df : DF) (k : String) : Nat := df.cols.indexOf k

/-- Tuple of join-key cells of one row, in join-key order. -/
def keyTup (df : DF) (keyList : List String) (row : List Cell) : List Cell :=
  keyList.map (fun k => row.getD (idx df k) Cell.missing)

/-- Values of the merge indicator column (_merge) produced by
pd.merge(..., indicator=True). -/
inductive Tag where
  | left_only
  | right_only
  | both
deriving DecidableEq, Repr

/-- One row of the merged frame: the originating left row (if any), the
originating right row (if any), and the indicator. -/
structure MRow where
  lrow : Option (List Cell)
  rrow : Option (List Cell)
  tag : Tag
deriving DecidableEq, Repr

/-- Join-key comparison used by pandas merge.  pandas matches NaN join
keys against each other, so this is structural equality of the key
tuples (Cell.missing equals Cell.missing). -/
def rowsMatch (df1 df2r : DF) (keyList : List String) (lr rr : List Cell) : Bool :=
  decide (keyTup df1 keyList lr = keyTup df2r keyList rr)

/-- Row production of a full outer merge: every pair of rows with equal
key tuples is combined and tagged both; an unmatched left row is kept
tagged left_only, an unmatched right row tagged right_only. -/
def join (df1 df2r : DF) (keyList : List String) : List MRow :=
  (df1.rows.flatMap (fun lr =>
    let ms := df2r.rows.filter (fun rr => rowsMatch df1 df2r keyList lr rr)
    if ms.isEmpty then [⟨some lr, none, Tag.left_only⟩]
    else ms.map (fun rr => ⟨some lr, some rr, Tag.both⟩)))
  ++ ((df2r.rows.filter
        (fun rr => ! df1.rows.any (fun lr => rowsMatch df1 df2r keyList lr rr))).map
      (fun rr => ⟨none, some rr, Tag.right_only⟩))

/-- Model of lines 52-62: rename df2 with the mapping as given, then
pd.merge(df1_copy, df2_copy, on=list(column_mapping.keys()), how=outer,
indicator=True).  The merge raises (modelled as none) when the key list
is empty or when some key is not a column label of both frames; the
except handler of the source catches exactly these exceptions. -/
def mergeCore (df1 df2 : DF) (m : ColumnMapping) : Option (List MRow) :=
  let keyList := mkeys m
  let df2r := rename df2 m
  if keyList = [] then none
  else if keyList.all (fun k => decide (k ∈ df1.cols) && decide (k ∈ df2r.cols)) then
    some (join df1 df2r keyList)
  else none

/-- Dataset-column label given to an indicator value at lines 66-70. -/
def labelOf (t : Tag) (lf rf : String) : String :=
  match t with
  | Tag.left_only => "Only in " ++ lf
  | Tag.right_only => "Only in " ++ rf
  | Tag.both => "In both " ++ lf ++ " and " ++ rf

/-- Label that the in-both rows carry (the comparison string of lines
  73-74 and 79). -/
def bothLabel (lf rf : String) : String := "In both " ++ lf ++ " and " ++ rf

/-- Model of compare_datasets (lines 45-85).  On the success path,
is_identical is the conjunction of the mismatched-filter being empty and
the two row counts agreeing (lines 72-76), and mismatched is the subset
of merged rows whose Dataset label differs from the in-both label
(line 79).  On an exception the handler at lines 83-85 returns
(False, empty frame). -/
def compare_datasets (df1 df2 : DF) (column_mapping : ColumnMapping)
    (left_filename right_filename : String) : Bool × List MRow :=
  match mergeCore df1 df2 column_mapping with
  | some merged =>
      let mismatched := merged.filter
        (fun r => decide (labelOf r.tag left_filename right_filename ≠
                          bothLabel left_filename right_filename))
      let is_identical := decide (mismatched.length = 0) &&
                          decide (df1.rows.length = df2.rows.length)
      (is_identical, mismatched)
  | none => (false, [])

/-- Model of get_matching_columns (lines 87-92) on the two column-name
sets. -/
def get_matching_columns (left_cols right_cols : Finset String) :
    Finset String × Finset String × Finset String :=
  (left_cols ∩ right_cols, left_cols \ right_cols, right_cols \ left_cols)

/-- Modelled from the spec (section 4.2 step 2, missing from the source,
which renames in the opposite direction): rename each mapped column of
the right dataset, named by a mapping value, to its left-side key name. -/
def renameSpec (df2 : DF) (m : ColumnMapping) : DF := rename df2 (invert m)

/-- Modelled from the spec (section 4.2 steps 2-4): the outer join the
spec describes, on the mapping keys after the spec-side rename. -/
def joinSpec (df1 df2 : DF) (m : ColumnMapping) : List MRow :=
  join df1 (renameSpec df2 m) (mkeys m)

/-- All rows of a merged frame carry the in-both indicator. -/
def allBoth (merged : List MRow) : Bool :=
  merged.all (fun r => decide (r.tag = Tag.both))

/-- Success condition of the merge of lines 56-62 as the source performs
it: a non-empty key list, every key a column label of the left frame and
of the right frame after the source-side rename. -/
def fwdOk (df1 df2 : DF) (m : ColumnMapping) : Prop :=
  mkeys m ≠ [] ∧ ∀ k ∈ mkeys m, k ∈ df1.cols ∧ k ∈ (rename df2 m).cols

/-- Combinatorial characterization of merge success: the mapping is a
non-empty permutation of one set of names (keys and values coincide as
sets) naming columns on both sides. -/
def permOk (df1 df2 : DF) (m : ColumnMapping) : Prop :=
  m ≠ [] ∧ (∀ k ∈ mkeys m, k ∈ df1.cols) ∧ (∀ k ∈ mkeys m, k ∈ df2.cols) ∧
    (∀ k ∈ mkeys m, k ∈ mvals m) ∧ (∀ v ∈ mvals m, v ∈ mkeys m)

/-- Every left row has a key-matching right row. -/
def leftCovered (df1 df2r : DF) (keyList : List String) : Prop :=
  ∀ lr ∈ df1.rows, ∃ rr ∈ df2r.rows,
    keyTup df1 keyList lr = keyTup df2r keyList rr

/-- Every right row has a key-matching left row. -/
def rightCovered (df1 df2r : DF) (keyList : List String) : Prop :=
  ∀ rr ∈ df2r.rows, ∃ lr ∈ df1.rows,
    keyTup df1 keyList lr = keyTup df2r keyList rr

/-- Python objects touched by compare_datasets: loaded frames and merged
tables; out is a merged table whose Dataset column holds the labels of
lines 66-70 rendered with the two file names. -/
inductive Obj where
  | ds (d : DF)
  | tbl (t : List MRow)
  | out (t : List MRow) (lf rf : String)
deriving DecidableEq, Repr

/-- Empty frame. -/
def dfDefault : DF := ⟨[], []⟩

/-- DataFrame content of an object. -/
def projDF : Obj → DF
  | Obj.ds d => d
  | _ => dfDefault

/-- Heap-level model of compare_datasets: the store holds every live
Python object; the call reads the two input frames at positions i and j,
allocates its private copies (lines 49-50), the renamed frame (line 53),
the merged frame and the frame returned by the _merge-column rename
(lines 56-65), overwrites the Dataset column of that last frame in place
(line 66, the one mutation in the body), and allocates the mismatched
selection (line 79).  Only fresh positions are written. -/
def compare_heap (h : List Obj) (i j : Nat) (m : ColumnMapping)
    (lf rf : String) : List Obj × (Bool × List MRow) :=
  let df1 := projDF (h.getD i (Obj.ds dfDefault))
  let df2 := projDF (h.getD j (Obj.ds dfDefault))
  let h2 := h ++ [Obj.ds df1, Obj.ds df2, Obj.ds (rename df2 m)]
  match mergeCore df1 df2 m with
  | none => (h2, (false, []))
  | some merged =>
      let h3 := h2 ++ [Obj.tbl merged, Obj.tbl merged]
      let h4 := h3.set (h2.length + 1) (Obj.out merged lf rf)
      let mismatched := merged.filter
        (fun r => decide (labelOf r.tag lf rf ≠ bothLabel lf rf))
      let is_identical := decide (mismatched.length = 0) &&
                          decide (df1.rows.length = df2.rows.length)
      let h5 := h4 ++ [Obj.out mismatched lf rf]
      (h5, (is_identical, mismatched))

/-- Scenario-3 left dataset: two rows with the same key. -/
def dfL3 : DF := ⟨["id"], [[Cell.num 1], [Cell.num 1]]⟩

/-- Scenario-3 right dataset: one row with that key. -/
def dfR3 : DF := ⟨["id"], [[Cell.num 1]]⟩

/-- Identity mapping on the id column. -/
def mID : ColumnMapping := [("id", "id")]

/-- Single-row left dataset whose only column is named id. -/
def dfC1L : DF := ⟨["id"], [[Cell.num 7]]⟩

/-- Single-row right dataset with the same value under the name key. -/
def dfC1R : DF := ⟨["key"], [[Cell.num 7]]⟩

/-- Mapping of the left column id to the right column key. -/
def mC1 : ColumnMapping := [("id", "key")]

/-- Single-row left dataset with column a. -/
def dfC2L : DF := ⟨["a"], [[Cell.num 1]]⟩

/-- Single-row right dataset with column b and the same value. -/
def dfC2R : DF := ⟨["b"], [[Cell.num 1]]⟩

/-- Mapping of the left column a to the right column b. -/
def mC2 : ColumnMapping := [("a", "b")]

/-- Two-row left dataset with duplicate key x = 5. -/
def dfC3L : DF := ⟨["x"], [[Cell.num 5], [Cell.num 5]]⟩

/-- One-row right dataset with key x = 5. -/
def dfC3R : DF := ⟨["x"], [[Cell.num 5]]⟩

/-- Identity mapping on the x column. -/
def mC3 : ColumnMapping := [("x", "x")]

/-- Left dataset with a single missing key cell. -/
def dfNL : DF := ⟨["a"], [[Cell.missing]]⟩

/-- Right dataset with a single missing key cell. -/
def dfNR : DF := ⟨["a"], [[Cell.missing]]⟩

/-- Identity mapping on the a column. -/
def mNa : ColumnMapping := [("a", "a")]

/-- Scenario-1 dataset, used on both sides. -/
def dfS1 : DF := ⟨["id"], [[Cell.num 1]]⟩

/-! Helper lemmas about the labels and the success path. -/

/-- A Dataset label equals the in-both label exactly for the in-both
indicator, whatever the two file names are: the other labels start with
a different word, so the lengths already differ. -/
theorem labelOf_eq_bothLabel_iff (t : Tag) (lf rf : String) :
    labelOf t lf rf = bothLabel lf rf ↔ t = Tag.both := by
  cases t with
  | both => simp [labelOf, bothLabel]
  | left_only =>
      simp only [labelOf, bothLabel]
      constructor
      · intro h
        exfalso
        have hlen := congrArg String.length h
        simp only [String.length_append] at hlen
        have h1 : ("Only in " : String).length = 8 := by decide
        have h2 : ("In both " : String).length = 8 := by decide
        have h3 : (" and " : String).length = 5 := by decide
        omega
      · intro h
        exact Tag.noConfusion h
  | right_only =>
      simp only [labelOf, bothLabel]
      constructor
      · intro h
        exfalso
        have hlen := congrArg String.length h
        simp only [String.length_append] at hlen
        have h1 : ("Only in " : String).length = 8 := by decide
        have h2 : ("In both " : String).length = 8 := by decide
        have h3 : (" and " : String).length = 5 := by decide
        omega
      · intro h
        exact Tag.noConfusion h

/-- Filtering by Dataset label is filtering by indicator. -/
theorem mismatched_eq_filter_tag (merged : List MRow) (lf rf : String) :
    merged.filter (fun r => decide (labelOf r.tag lf rf ≠ bothLabel lf rf)) =
      merged.filter (fun r => decide (r.tag ≠ Tag.both)) := by
  apply List.filter_congr
  intro r _
  simp only [decide_eq_decide]
  exact not_congr (labelOf_eq_bothLabel_iff r.tag lf rf)

/-- Shape of the result on the success path of the merge. -/
theorem compare_eq_of_merge (df1 df2 : DF) (m : ColumnMapping) (lf rf : String)
    (merged : List MRow) (h : mergeCore df1 df2 m = some merged) :
    compare_datasets df1 df2 m lf rf =
      (decide ((merged.filter (fun r => decide (r.tag ≠ Tag.both))).length = 0) &&
         decide (df1.rows.length = df2.rows.length),
       merged.filter (fun r => decide (r.tag ≠ Tag.both))) := by
  simp [compare_datasets, h, labelOf_eq_bothLabel_iff]

/-- Shape of the result when the merge raises and the handler at lines
83-85 returns the sentinel. -/
theorem compare_none (df1 df2 : DF) (m : ColumnMapping) (lf rf : String)
    (h : mergeCore df1 df2 m = none) :
    compare_datasets df1 df2 m lf rf = (false, []) := by
  simp [compare_datasets, h]

/-- The mismatched selection is empty exactly when every merged row is
in-both. -/
theorem filter_tag_eq_nil_iff (merged : List MRow) :
    (merged.filter (fun r => decide (r.tag ≠ Tag.both)) = []) ↔
      allBoth merged = true := by
  simp [List.filter_eq_nil_iff, allBoth, List.all_eq_true]

/-- Characterization of the identical flag on the success path:
lines 72-76 make it the conjunction of every merged row being in-both
and the two row counts agreeing. -/
theorem identical_iff (df1 df2 : DF) (m : ColumnMapping) (lf rf : String)
    (merged : List MRow) (h : mergeCore df1 df2 m = some merged) :
    (compare_datasets df1 df2 m lf rf).1 = true ↔
      (allBoth merged = true ∧ df1.rows.length = df2.rows.length) := by
  rw [compare_eq_of_merge df1 df2 m lf rf merged h]
  simp only [Bool.and_eq_true, decide_eq_true_eq, List.length_eq_zero]
  rw [filter_tag_eq_nil_iff]

/-! Theorems settling the claims. -/

/-- C1 (counterexample).  The claim quantifies over every mapping whose
keys name columns of left and whose values name columns of right.  For
left with column id, right with column key, and the mapping id to key,
both sides of the claimed equivalence diverge: the outer join the claim
speaks about (spec step 2-4, right column key renamed to id) puts its
single joined row in-both and the row counts agree, yet compare returns
identical = false, because the source renames in the opposite direction
(line 53 passes the left-to-right dict to pandas rename), the merge on
column id raises KeyError and the handler returns the sentinel. -/
theorem c1_counterexample :
    (compare_datasets dfC1L dfC1R mC1 "L" "R").1 = false ∧
    allBoth (joinSpec dfC1L dfC1R mC1) = true ∧
    dfC1L.rows.length = dfC1R.rows.length := by decide

/-- C1 (amended).  For every pair of datasets and every mapping for
which the merge at lines 56-62 succeeds, the identical flag is true iff
every merged row is classified in-both and the two row counts agree; in
particular it is false for Scenario 3 although all its joined rows are
in-both. -/
theorem c1_identical_iff_allBoth_and_counts (df1 df2 : DF) (m : ColumnMapping)
    (lf rf : String) (merged : List MRow) (h : mergeCore df1 df2 m = some merged) :
    (compare_datasets df1 df2 m lf rf).1 = true ↔
      (allBoth merged = true ∧ df1.rows.length = df2.rows.length) :=
  identical_iff df1 df2 m lf rf merged h

/-- C1 (witness): Scenario 3, two left rows and one right row with
key id = 1 under the identity mapping; the merge succeeds with two
in-both rows, the equivalence instantiates, and the flag is false since
2 rows differ from 1 row. -/
theorem c1_scenario3_witness :
    ((compare_datasets dfL3 dfR3 mID "L" "R").1 = true ↔
      (allBoth [MRow.mk (some [Cell.num 1]) (some [Cell.num 1]) Tag.both,
                MRow.mk (some [Cell.num 1]) (some [Cell.num 1]) Tag.both] = true ∧
        dfL3.rows.length = dfR3.rows.length)) ∧
    (compare_datasets dfL3 dfR3 mID "L" "R").1 = false :=
  ⟨c1_identical_iff_allBoth_and_counts dfL3 dfR3 mID "L" "R" _ (by decide),
   by decide⟩

/-- C2 (code bug).  With left = {a: [1]}, right = {b: [1]} and the
mapping a to b, the source's rename at line 53 leaves the right frame
untouched (the dict maps a to b, and the right frame has no column a),
the merge on key a raises and compare returns the sentinel
(False, empty); the spec-side rename would instead produce the column a
and the join would succeed with the row in-both. -/
theorem c2_rename_direction_bug :
    rename dfC2R mC2 = dfC2R ∧
    compare_datasets dfC2L dfC2R mC2 "L" "R" = (false, []) ∧
    renameSpec dfC2R mC2 = DF.mk ["a"] [[Cell.num 1]] ∧
    allBoth (joinSpec dfC2L dfC2R mC2) = true := by decide

/-- C3 (counterexample).  The empty-mapping call returns the plain value
(False, empty frame) rather than failing with a distinguishable error:
the very same value a genuine comparison returns (here the valid
identity mapping on duplicate keys, which joins all-both yet has a row
count mismatch). -/
theorem c3_counterexample :
    compare_datasets dfC3L dfC3R [] "A" "B" = (false, []) ∧
    compare_datasets dfC3L dfC3R mC3 "A" "B" = (false, []) := by decide

/-- C3 (amended).  When the mapping is empty, or some mapping key is
absent from the left frame or from the right frame after the source's
rename, the merge raises, the handler displays a message and compare
returns the sentinel (False, empty frame) - a value indistinguishable
from a genuine result; the inputs are untouched. -/
theorem c3_sentinel_on_invalid_mapping (df1 df2 : DF) (m : ColumnMapping)
    (lf rf : String)
    (h : m = [] ∨ ∃ k ∈ mkeys m, k ∉ df1.cols ∨ k ∉ (rename df2 m).cols) :
    compare_datasets df1 df2 m lf rf = (false, []) := by
  have hnone : mergeCore df1 df2 m = none := by
    rcases h with rfl | ⟨k, hk, hbad⟩
    · simp [mergeCore, mkeys]
    · have h1 : ¬ (mkeys m = []) := by
        intro hc
        rw [hc] at hk
        exact List.not_mem_nil k hk
      have h2 : ¬ ((mkeys m).all
          (fun k => decide (k ∈ df1.cols) && decide (k ∈ (rename df2 m).cols)) = true) := by
        rw [List.all_eq_true]
        intro hall
        have := hall k hk
        rcases hbad with hb | hb <;> simp [hb] at this
      simp [mergeCore, h1, h2]
  exact compare_none df1 df2 m lf rf hnone

/-- C3 (witness): a mapping whose key zz names no column of the left
frame yields the sentinel. -/
theorem c3_witness :
    compare_datasets dfC3L dfC3R [("zz", "x")] "A" "B" = (false, []) :=
  c3_sentinel_on_invalid_mapping dfC3L dfC3R [("zz", "x")] "A" "B"
    (Or.inr ⟨"zz", by decide, Or.inl (by decide)⟩)

/-- C4 (counterexample).  Two rows whose only key cell is missing on
both sides are merged into a single in-both row - pandas merge matches
NaN join keys - and compare even reports the datasets identical, where
the claim says the two missing values must not compare equal. -/
theorem c4_counterexample :
    mergeCore dfNL dfNR mNa =
      some [MRow.mk (some [Cell.missing]) (some [Cell.missing]) Tag.both] ∧
    compare_datasets dfNL dfNR mNa "L" "R" = (true, []) := by decide

/-- C4 (amended).  A left row and a right row whose join-key tuples are
equal - missing values included, two missing key cells compare equal -
are merged into an in-both row of the output. -/
theorem c4_equal_keys_merge_in_both (df1 df2 : DF) (m : ColumnMapping)
    (merged : List MRow) (lr rr : List Cell)
    (h : mergeCore df1 df2 m = some merged)
    (hl : lr ∈ df1.rows) (hr : rr ∈ (rename df2 m).rows)
    (hkey : keyTup df1 (mkeys m) lr = keyTup (rename df2 m) (mkeys m) rr) :
    MRow.mk (some lr) (some rr) Tag.both ∈ merged := by
  have hj : merged = join df1 (rename df2 m) (mkeys m) := by
    simp only [mergeCore] at h
    split at h
    · exact Option.noConfusion h
    · split at h
      · exact (Option.some.injEq _ _ ▸ h).symm
      · exact Option.noConfusion h
  subst hj
  apply List.mem_append.mpr
  left
  rw [List.mem_flatMap]
  refine ⟨lr, hl, ?_⟩
  have hmem : rr ∈ (rename df2 m).rows.filter
      (fun rr => rowsMatch df1 (rename df2 m) (mkeys m) lr rr) := by
    rw [List.mem_filter]
    exact ⟨hr, by simp [rowsMatch, hkey]⟩
  have hne : ((rename df2 m).rows.filter
      (fun rr => rowsMatch df1 (rename df2 m) (mkeys m) lr rr)).isEmpty = false := by
    rw [List.isEmpty_eq_false_iff_exists_mem]
    exact ⟨rr, hmem⟩
  simp only [hne, Bool.false_eq_true, if_false]
  exact List.mem_map.mpr ⟨rr, hmem, rfl⟩

/-- C4 (witness): the amended statement instantiated at the two
missing-key rows, whose key tuples are equal because missing matches
missing. -/
theorem c4_witness :
    MRow.mk (some [Cell.missing]) (some [Cell.missing]) Tag.both ∈
      [MRow.mk (some [Cell.missing]) (some [Cell.missing]) Tag.both] :=
  c4_equal_keys_merge_in_both dfNL dfNR mNa _ _ _ (by decide) (by decide)
    (by decide) (by decide)

/-- C5 (confirmed).  The differences frame is the selection of merged
rows whose label is not the in-both label (line 79): every row in it is
only-in-left or only-in-right, every merged row left out of it is
in-both, and a true identical flag forces it empty (the flag conjoins
emptiness of the very same selection, lines 72-76). -/
theorem c5_differences_partition (df1 df2 : DF) (m : ColumnMapping) (lf rf : String) :
    (∀ r ∈ (compare_datasets df1 df2 m lf rf).2, r.tag ≠ Tag.both) ∧
    (∀ merged, mergeCore df1 df2 m = some merged →
      ∀ r ∈ merged, r ∉ (compare_datasets df1 df2 m lf rf).2 → r.tag = Tag.both) ∧
    ((compare_datasets df1 df2 m lf rf).1 = true →
      (compare_datasets df1 df2 m lf rf).2 = []) := by
  rcases h : mergeCore df1 df2 m with _ | merged
  · rw [compare_none df1 df2 m lf rf h]
    refine ⟨by simp, ?_, by simp⟩
    intro merged hmerged
    exact Option.noConfusion hmerged
  · rw [compare_eq_of_merge df1 df2 m lf rf merged h]
    refine ⟨?_, ?_, ?_⟩
    · intro r hr
      have := (List.mem_filter.mp hr).2
      simpa using this
    · intro merged2 hmerged2 r hrmem hrnot
      have hmm : merged2 = merged := (Option.some.inj hmerged2).symm
      subst hmm
      by_contra hne
      exact hrnot (List.mem_filter.mpr ⟨hrmem, by simpa using hne⟩)
    · intro hid
      simp only [Bool.and_eq_true, decide_eq_true_eq] at hid
      rw [← List.length_eq_zero]
      exact hid.1

/-- C5 (witness): two identical one-row datasets under the identity
mapping give identical = true and the empty differences frame. -/
theorem c5_witness : (compare_datasets dfS1 dfS1 mID "A" "B").2 = [] :=
  (c5_differences_partition dfS1 dfS1 mID "A" "B").2.2 (by decide)

/-- C6 (confirmed).  The column matcher returns the intersection, the
left difference and the right difference of the two column-name sets;
the three parts are pairwise disjoint and they cover the union. -/
theorem c6_matcher_partition (A B : Finset String) :
    (get_matching_columns A B).1 = A ∩ B ∧
    (get_matching_columns A B).2.1 = A \ B ∧
    (get_matching_columns A B).2.2 = B \ A ∧
    Disjoint (get_matching_columns A B).1 (get_matching_columns A B).2.1 ∧
    Disjoint (get_matching_columns A B).1 (get_matching_columns A B).2.2 ∧
    Disjoint (get_matching_columns A B).2.1 (get_matching_columns A B).2.2 ∧
    (get_matching_columns A B).1 ∪ (get_matching_columns A B).2.1 ∪
        (get_matching_columns A B).2.2 = A ∪ B := by
  refine ⟨rfl, rfl, rfl, ?_, ?_, ?_, ?_⟩
  · rw [Finset.disjoint_left]
    intro x hx hx2
    simp only [get_matching_columns, Finset.mem_inter, Finset.mem_sdiff] at hx hx2
    exact hx2.2 hx.2
  · rw [Finset.disjoint_left]
    intro x hx hx2
    simp only [get_matching_columns, Finset.mem_inter, Finset.mem_sdiff] at hx hx2
    exact hx2.2 hx.1
  · rw [Finset.disjoint_left]
    intro x hx hx2
    simp only [get_matching_columns, Finset.mem_sdiff] at hx hx2
    exact hx.2 hx2.1
  · ext x
    simp only [get_matching_columns, Finset.mem_union, Finset.mem_inter,
      Finset.mem_sdiff]
    tauto

/-- C10 (confirmed).  Scenario 3 input: the identical flag is false
while the differences frame is empty, so a false flag does not imply a
non-empty differences frame. -/
theorem c10_false_flag_empty_differences :
    compare_datasets dfL3 dfR3 mID "left" "right" = (false, []) := by decide

/-- C7 (confirmed).  A compare call writes only positions it allocated
itself: every object present in the store before the call - the two
input frames in particular, with their columns, rows and cells - is
unchanged at its position afterwards. -/
theorem c7_inputs_unmutated (h : List Obj) (i j : Nat) (m : ColumnMapping)
    (lf rf : String) (i2 : Nat) (hi2 : i2 < h.length) :
    ((compare_heap h i j m lf rf).1)[i2]? = h[i2]? := by
  rcases hm : mergeCore (projDF (h.getD i (Obj.ds dfDefault)))
      (projDF (h.getD j (Obj.ds dfDefault))) m with _ | merged
  · simp only [compare_heap, hm]
    exact List.getElem?_append_left hi2
  · simp only [compare_heap, hm]
    rw [List.getElem?_append_left (by simp; omega),
        List.getElem?_set_ne (by simp; omega),
        List.getElem?_append_left (by simp; omega),
        List.getElem?_append_left hi2]

/-- C7 (witness): a two-object store, inputs at positions 0 and 1; the
object at position 0 is unchanged by the call. -/
theorem c7_witness :
    ((compare_heap [Obj.ds dfS1, Obj.ds dfR3] 0 1 mID "A" "B").1)[0]? =
      [Obj.ds dfS1, Obj.ds dfR3][0]? :=
  c7_inputs_unmutated [Obj.ds dfS1, Obj.ds dfR3] 0 1 mID "A" "B" 0 (by decide)

/-- Result of the heap-level call is the pure function of the two frames
it read. -/
theorem compare_heap_snd (h : List Obj) (i j : Nat) (m : ColumnMapping)
    (lf rf : String) :
    (compare_heap h i j m lf rf).2 =
      compare_datasets (projDF (h.getD i (Obj.ds dfDefault)))
        (projDF (h.getD j (Obj.ds dfDefault))) m lf rf := by
  rcases hm : mergeCore (projDF (h.getD i (Obj.ds dfDefault)))
      (projDF (h.getD j (Obj.ds dfDefault))) m with _ | merged
  · simp only [compare_heap, compare_datasets, hm]
  · simp only [compare_heap, compare_datasets, hm]

/-- C8 (confirmed).  Two calls reading equal input frames - whatever the
surrounding store contents and positions - return equal results: the
same identical flag and the same differences frame, row for row. -/
theorem c8_deterministic (h1 h2 : List Obj) (i1 j1 i2 j2 : Nat)
    (m : ColumnMapping) (lf rf : String)
    (hi : h1.getD i1 (Obj.ds dfDefault) = h2.getD i2 (Obj.ds dfDefault))
    (hj : h1.getD j1 (Obj.ds dfDefault) = h2.getD j2 (Obj.ds dfDefault)) :
    (compare_heap h1 i1 j1 m lf rf).2 = (compare_heap h2 i2 j2 m lf rf).2 := by
  rw [compare_heap_snd, compare_heap_snd, hi, hj]

/-- C8 (witness): the same two frames at different positions of two
different stores give the same result. -/
theorem c8_witness :
    (compare_heap [Obj.ds dfL3, Obj.ds dfR3] 0 1 mID "A" "B").2 =
      (compare_heap [Obj.tbl [], Obj.ds dfL3, Obj.ds dfR3] 1 2 mID "A" "B").2 :=
  c8_deterministic [Obj.ds dfL3, Obj.ds dfR3]
    [Obj.tbl [], Obj.ds dfL3, Obj.ds dfR3] 0 1 1 2 mID "A" "B"
    (by decide) (by decide)

/-! Lemmas about dict lookup, the inverted mapping and column positions,
leading to the symmetry of the identical flag. -/

/-- Lookup of a key present in a dict with distinct keys. -/
theorem lookup_eq_some_of_mem {m : ColumnMapping} {k v : String}
    (hk : (mkeys m).Nodup) (hmem : (k, v) ∈ m) : List.lookup k m = some v := by
  induction m with
  | nil => cases hmem
  | cons p t ih =>
      obtain ⟨a, b⟩ := p
      have hk' : (a :: mkeys t).Nodup := by simpa [mkeys] using hk
      rcases List.mem_cons.mp hmem with heq | ht
      · rw [Prod.mk.injEq] at heq
        rw [heq.1, heq.2]
        simp [List.lookup]
      · have hne : k ≠ a := by
          intro hkp
          have hkt : k ∈ mkeys t := List.mem_map.mpr ⟨(k, v), ht, rfl⟩
          rw [hkp] at hkt
          exact (List.nodup_cons.mp hk').1 hkt
        have hbeq : (k == a) = false := beq_eq_false_iff_ne.mpr hne
        simp only [List.lookup, hbeq]
        exact ih (List.nodup_cons.mp hk').2 ht

/-- A successful lookup names an entry of the dict. -/
theorem mem_of_lookup_eq_some {m : ColumnMapping} {k v : String}
    (h : List.lookup k m = some v) : (k, v) ∈ m := by
  induction m with
  | nil => exact Option.noConfusion h
  | cons p t ih =>
      obtain ⟨a, b⟩ := p
      by_cases hka : k = a
      · subst hka
        simp only [List.lookup, beq_self_eq_true] at h
        rw [Option.some.inj h]
        exact List.mem_cons_self _ _
      · have hbeq : (k == a) = false := beq_eq_false_iff_ne.mpr hka
        simp only [List.lookup, hbeq] at h
        exact List.mem_cons_of_mem _ (ih h)

/-- Lookup misses exactly the non-keys. -/
theorem lookup_eq_none_iff {m : ColumnMapping} {k : String} :
    List.lookup k m = none ↔ k ∉ mkeys m := by
  induction m with
  | nil => simp [mkeys, List.lookup]
  | cons p t ih =>
      obtain ⟨a, b⟩ := p
      by_cases hka : k = a
      · subst hka
        simp [List.lookup, mkeys]
      · have hbeq : (k == a) = false := beq_eq_false_iff_ne.mpr hka
        simp only [List.lookup, hbeq, mkeys, List.map_cons, List.mem_cons]
        rw [ih]
        simp [mkeys, hka]

/-- Keys of the inverted mapping are the values of the mapping. -/
theorem mkeys_invert (m : ColumnMapping) : mkeys (invert m) = mvals m := by
  simp [mkeys, mvals, invert, List.map_map, Function.comp]

/-- Values of the inverted mapping are the keys of the mapping. -/
theorem mvals_invert (m : ColumnMapping) : mvals (invert m) = mkeys m := by
  simp [mkeys, mvals, invert, List.map_map, Function.comp]

/-- Inverting twice restores the mapping. -/
theorem invert_invert (m : ColumnMapping) : invert (invert m) = m := by
  unfold invert
  rw [List.map_map]
  have hcomp : ((fun p : String × String => (p.2, p.1)) ∘
      fun p : String × String => (p.2, p.1)) = id := by
    funext p
    rfl
  rw [hcomp, List.map_id]

/-- Entries of the inverted mapping. -/
theorem mem_invert {m : ColumnMapping} {k v : String} :
    (v, k) ∈ invert m ↔ (k, v) ∈ m := by
  constructor
  · intro h
    rcases List.mem_map.mp h with ⟨p, hp, heq⟩
    rw [Prod.mk.injEq] at heq
    have hpkv : p = (k, v) := by
      rw [Prod.ext_iff]
      exact ⟨heq.2, heq.1⟩
    rwa [hpkv] at hp
  · intro h
    exact List.mem_map.mpr ⟨(k, v), h, rfl⟩

/-- Position of a mapped element in a mapped list, for an injective
renaming. -/
theorem indexOf_map_of_injective {f : String → String}
    (hf : ∀ x y, f x = f y → x = y) (l : List String) (a : String) :
    (l.map f).indexOf (f a) = l.indexOf a := by
  induction l with
  | nil => rfl
  | cons b t ih =>
      rw [List.map_cons, List.indexOf_cons, List.indexOf_cons]
      have : (f b == f a) = (b == a) := by
        by_cases hba : b = a
        · rw [hba]
          simp
        · have h1 : (f b == f a) = false :=
            beq_eq_false_iff_ne.mpr (fun hc => hba (hf b a hc))
          have h2 : (b == a) = false := beq_eq_false_iff_ne.mpr hba
          rw [h1, h2]
      rw [this, ih]

/-- On the success condition the merge returns the join. -/
theorem mergeCore_eq_some_of {df1 df2 : DF} {m : ColumnMapping}
    (hok : fwdOk df1 df2 m) :
    mergeCore df1 df2 m = some (join df1 (rename df2 m) (mkeys m)) := by
  obtain ⟨hne, hall⟩ := hok
  have h2 : ((mkeys m).all
      (fun k => decide (k ∈ df1.cols) && decide (k ∈ (rename df2 m).cols))) = true := by
    rw [List.all_eq_true]
    intro k hkK
    rcases hall k hkK with ⟨ha, hb⟩
    simp [ha, hb]
  simp [mergeCore, hne, h2]

/-- Off the success condition the merge raises. -/
theorem mergeCore_eq_none_of {df1 df2 : DF} {m : ColumnMapping}
    (hnot : ¬ fwdOk df1 df2 m) :
    mergeCore df1 df2 m = none := by
  by_cases hne : mkeys m = []
  · simp [mergeCore, hne]
  · have hall : ¬ (((mkeys m).all
        (fun k => decide (k ∈ df1.cols) && decide (k ∈ (rename df2 m).cols))) = true) := by
      intro hall
      apply hnot
      refine ⟨hne, ?_⟩
      intro k hkK
      have := (List.all_eq_true.mp hall) k hkK
      simpa using this
    have hb : ((mkeys m).all
        (fun k => decide (k ∈ df1.cols) && decide (k ∈ (rename df2 m).cols))) = false :=
      Bool.eq_false_iff.mpr hall
    simp [mergeCore, hne, hb]

/-- With distinct keys and distinct values, the source-side merge
succeeds exactly when the mapping is a non-empty permutation of a set of
names that are columns of both frames. -/
theorem fwdOk_iff_permOk {df1 df2 : DF} {m : ColumnMapping}
    (hk : (mkeys m).Nodup) (hv : (mvals m).Nodup) :
    fwdOk df1 df2 m ↔ permOk df1 df2 m := by
  constructor
  · rintro ⟨hne, hall⟩
    have H : ∀ k ∈ mkeys m, ∃ c, (c, k) ∈ m ∧ c ∈ df2.cols := by
      intro k hkK
      rcases hall k hkK with ⟨-, hk2⟩
      rcases List.mem_map.mp (by simpa [rename] using hk2) with ⟨c, hc, hrn⟩
      rcases hcase : List.lookup c m with _ | w
      · exfalso
        have hck : c = k := by simpa [rn, hcase] using hrn
        rw [lookup_eq_none_iff] at hcase
        rw [hck] at hcase
        exact hcase hkK
      · have hw : w = k := by simpa [rn, hcase] using hrn
        subst hw
        exact ⟨c, mem_of_lookup_eq_some hcase, hc⟩
    have hKV : ∀ k ∈ mkeys m, k ∈ mvals m := by
      intro k hkK
      rcases H k hkK with ⟨c, hcm, -⟩
      exact List.mem_map.mpr ⟨(c, k), hcm, rfl⟩
    have hVK : ∀ v ∈ mvals m, v ∈ mkeys m := by
      have hsub : (mkeys m).toFinset ⊆ (mvals m).toFinset := by
        intro x hx
        rw [List.mem_toFinset] at hx ⊢
        exact hKV x hx
      have hcard : (mvals m).toFinset.card ≤ (mkeys m).toFinset.card := by
        rw [List.toFinset_card_of_nodup hk, List.toFinset_card_of_nodup hv]
        simp [mkeys, mvals]
      have heq := Finset.eq_of_subset_of_card_le hsub hcard
      intro v hvV
      have hvF : v ∈ (mvals m).toFinset := List.mem_toFinset.mpr hvV
      rw [← heq] at hvF
      exact List.mem_toFinset.mp hvF
    have hg : ∀ k ∈ mkeys m,
        rn (invert m) k ∈ mkeys m ∧ rn (invert m) k ∈ df2.cols ∧
          (rn (invert m) k, k) ∈ m := by
      intro k hkK
      rcases H k hkK with ⟨c, hcm, hccols⟩
      have hlk : List.lookup k (invert m) = some c := by
        apply lookup_eq_some_of_mem
        · rw [mkeys_invert]
          exact hv
        · exact mem_invert.mpr hcm
      have hgk : rn (invert m) k = c := by simp [rn, hlk]
      rw [hgk]
      exact ⟨List.mem_map.mpr ⟨(c, k), hcm, rfl⟩, hccols, hcm⟩
    have hKcols2 : ∀ k ∈ mkeys m, k ∈ df2.cols := by
      have hginj : Set.InjOn (rn (invert m)) ((mkeys m).toFinset : Set String) := by
        intro x hx y hy hxy
        have hxm : (rn (invert m) x, x) ∈ m :=
          (hg x (List.mem_toFinset.mp (Finset.mem_coe.mp hx))).2.2
        have hym : (rn (invert m) y, y) ∈ m :=
          (hg y (List.mem_toFinset.mp (Finset.mem_coe.mp hy))).2.2
        rw [hxy] at hxm
        have e1 := lookup_eq_some_of_mem hk hxm
        have e2 := lookup_eq_some_of_mem hk hym
        rw [e1] at e2
        exact Option.some.inj e2
      have himg : ((mkeys m).toFinset.image (rn (invert m))) = (mkeys m).toFinset := by
        apply Finset.eq_of_subset_of_card_le
        · intro x hx
          rcases Finset.mem_image.mp hx with ⟨k, hkF, hgk⟩
          have hmem := (hg k (List.mem_toFinset.mp hkF)).1
          rw [hgk] at hmem
          exact List.mem_toFinset.mpr hmem
        · rw [Finset.card_image_of_injOn hginj]
      intro k hkK
      have hkimg : k ∈ (mkeys m).toFinset.image (rn (invert m)) := by
        rw [himg]
        exact List.mem_toFinset.mpr hkK
      rcases Finset.mem_image.mp hkimg with ⟨k2, hk2F, hgk2⟩
      have hcols := (hg k2 (List.mem_toFinset.mp hk2F)).2.1
      rwa [hgk2] at hcols
    refine ⟨?_, fun k hkK => (hall k hkK).1, hKcols2, hKV, hVK⟩
    intro hmnil
    exact hne (by rw [hmnil]; rfl)
  · rintro ⟨hmne, h1, h2, hKV, hVK⟩
    have hne : mkeys m ≠ [] := by
      intro hc
      exact hmne (List.map_eq_nil_iff.mp hc)
    refine ⟨hne, ?_⟩
    intro k hkK
    refine ⟨h1 k hkK, ?_⟩
    have hkV : k ∈ mvals m := hKV k hkK
    rcases List.mem_map.mp hkV with ⟨p, hpm, hpk⟩
    have hlk : List.lookup p.1 m = some p.2 := lookup_eq_some_of_mem hk hpm
    have hp1K : p.1 ∈ mkeys m := List.mem_map.mpr ⟨p, hpm, rfl⟩
    have hp1cols : p.1 ∈ df2.cols := h2 p.1 hp1K
    show k ∈ (rename df2 m).cols
    simp only [rename]
    exact List.mem_map.mpr ⟨p.1, hp1cols, by simp [rn, hlk, hpk]⟩

/-- Merge-success symmetry: the permutation characterization is stable
under swapping the frames and inverting the mapping. -/
theorem permOk_symm {df1 df2 : DF} {m : ColumnMapping}
    (h : permOk df1 df2 m) : permOk df2 df1 (invert m) := by
  obtain ⟨hne, h1, h2, hKV, hVK⟩ := h
  refine ⟨?_, ?_, ?_, ?_, ?_⟩
  · intro hc
    exact hne (List.map_eq_nil_iff.mp hc)
  · rw [mkeys_invert]
    intro v hvV
    exact h2 v (hVK v hvV)
  · rw [mkeys_invert]
    intro v hvV
    exact h1 v (hVK v hvV)
  · rw [mkeys_invert, mvals_invert]
    exact hVK
  · rw [mkeys_invert, mvals_invert]
    exact hKV

/-- Renaming a key of the dict gives its value, an entry of the dict. -/
theorem rn_of_mem_keys {m : ColumnMapping} (hk : (mkeys m).Nodup) {k : String}
    (hkK : k ∈ mkeys m) : (k, rn m k) ∈ m ∧ rn m k ∈ mvals m := by
  rcases List.mem_map.mp hkK with ⟨p, hpm, hp1⟩
  obtain ⟨a, b⟩ := p
  simp only at hp1
  rw [hp1] at hpm
  have hlk : List.lookup k m = some b := lookup_eq_some_of_mem hk hpm
  have hrk : rn m k = b := by
    show (List.lookup k m).getD k = b
    rw [hlk]
    rfl
  rw [hrk]
  exact ⟨hpm, List.mem_map.mpr ⟨(k, b), hpm, rfl⟩⟩

/-- Applying the inverted renaming after the renaming restores a key. -/
theorem rn_invert_rn {m : ColumnMapping} (hk : (mkeys m).Nodup)
    (hv : (mvals m).Nodup) {k : String} (hkK : k ∈ mkeys m) :
    rn (invert m) (rn m k) = k := by
  have hmem := (rn_of_mem_keys hk hkK).1
  have hlk : List.lookup (rn m k) (invert m) = some k := by
    apply lookup_eq_some_of_mem
    · rw [mkeys_invert]
      exact hv
    · exact mem_invert.mpr hmem
  show (List.lookup (rn m k) (invert m)).getD (rn m k) = k
  rw [hlk]
  rfl

/-- Applying the renaming after the inverted renaming restores a key,
and the inverted renaming of a key is again a key. -/
theorem rn_rn_invert {m : ColumnMapping} (hk : (mkeys m).Nodup)
    (hv : (mvals m).Nodup) (hKV : ∀ k ∈ mkeys m, k ∈ mvals m) {k : String}
    (hkK : k ∈ mkeys m) :
    rn m (rn (invert m) k) = k ∧ rn (invert m) k ∈ mkeys m := by
  have hkV : k ∈ mvals m := hKV k hkK
  rcases List.mem_map.mp hkV with ⟨p, hpm, hp2⟩
  obtain ⟨c, b⟩ := p
  simp only at hp2
  rw [hp2] at hpm
  have hlinv : List.lookup k (invert m) = some c := by
    apply lookup_eq_some_of_mem
    · rw [mkeys_invert]
      exact hv
    · exact mem_invert.mpr hpm
  have hgk : rn (invert m) k = c := by
    show (List.lookup k (invert m)).getD k = c
    rw [hlinv]
    rfl
  have hlc : List.lookup c m = some k := lookup_eq_some_of_mem hk hpm
  constructor
  · rw [hgk]
    show (List.lookup c m).getD c = k
    rw [hlc]
    rfl
  · rw [hgk]
    exact List.mem_map.mpr ⟨(c, k), hpm, rfl⟩

/-- On a permutation mapping the renaming is injective on all names. -/
theorem rn_injective {m : ColumnMapping} (hk : (mkeys m).Nodup)
    (hv : (mvals m).Nodup) (hVK : ∀ v ∈ mvals m, v ∈ mkeys m) :
    ∀ x y, rn m x = rn m y → x = y := by
  intro x y hxy
  by_cases hx : x ∈ mkeys m <;> by_cases hy : y ∈ mkeys m
  · have e1 := rn_invert_rn hk hv hx
    have e2 := rn_invert_rn hk hv hy
    rw [← e1, ← e2, hxy]
  · exfalso
    have hxV : rn m x ∈ mvals m := (rn_of_mem_keys hk hx).2
    have hyid : rn m y = y := by
      simp [rn, lookup_eq_none_iff.mpr hy]
    rw [hxy, hyid] at hxV
    exact hy (hVK y hxV)
  · exfalso
    have hyV : rn m y ∈ mvals m := (rn_of_mem_keys hk hy).2
    have hxid : rn m x = x := by
      simp [rn, lookup_eq_none_iff.mpr hx]
    rw [← hxy, hxid] at hyV
    exact hx (hVK x hyV)
  · have hxid : rn m x = x := by
      simp [rn, lookup_eq_none_iff.mpr hx]
    have hyid : rn m y = y := by
      simp [rn, lookup_eq_none_iff.mpr hy]
    rw [← hxid, ← hyid, hxy]

/-- Position of a key column in the renamed frame: the position of its
preimage under the renaming in the original frame. -/
theorem idx_rename_eq {df2 : DF} {m : ColumnMapping}
    (hinj : ∀ x y, rn m x = rn m y → x = y) {k : String}
    (hsig : rn m (rn (invert m) k) = k) :
    idx (rename df2 m) k = idx df2 (rn (invert m) k) := by
  show (DF.mk (df2.cols.map (rn m)) df2.rows).cols.indexOf k = df2.cols.indexOf _
  calc (df2.cols.map (rn m)).indexOf k
      = (df2.cols.map (rn m)).indexOf (rn m (rn (invert m) k)) := by rw [hsig]
    _ = df2.cols.indexOf (rn (invert m) k) :=
        indexOf_map_of_injective hinj df2.cols (rn (invert m) k)

/-- The merged output is all in-both exactly when the key tuples of the
two frames cover each other. -/
theorem allBoth_join_iff (df1 df2r : DF) (keyList : List String) :
    allBoth (join df1 df2r keyList) = true ↔
      leftCovered df1 df2r keyList ∧ rightCovered df1 df2r keyList := by
  unfold allBoth join leftCovered rightCovered
  rw [List.all_append, Bool.and_eq_true]
  apply and_congr
  · rw [List.all_eq_true]
    constructor
    · intro hall lr hlr
      by_contra hno
      push_neg at hno
      have hfe : df2r.rows.filter (fun rr => rowsMatch df1 df2r keyList lr rr) = [] := by
        rw [List.filter_eq_nil_iff]
        intro rr hrr
        simp only [rowsMatch, decide_eq_true_eq]
        exact hno rr hrr
      have hmem : MRow.mk (some lr) none Tag.left_only ∈
          df1.rows.flatMap (fun lr =>
            let ms := df2r.rows.filter (fun rr => rowsMatch df1 df2r keyList lr rr)
            if ms.isEmpty then [MRow.mk (some lr) none Tag.left_only]
            else ms.map (fun rr => MRow.mk (some lr) (some rr) Tag.both)) :=
        List.mem_flatMap.mpr ⟨lr, hlr, by simp [hfe]⟩
      have := hall _ hmem
      simp at this
    · intro hcov x hx
      rcases List.mem_flatMap.mp hx with ⟨lr, hlr, hxin⟩
      rcases hcov lr hlr with ⟨rr, hrr, hkeq⟩
      have hne : (df2r.rows.filter
          (fun rr2 => rowsMatch df1 df2r keyList lr rr2)).isEmpty = false := by
        rw [List.isEmpty_eq_false_iff_exists_mem]
        exact ⟨rr, List.mem_filter.mpr ⟨hrr, by simp [rowsMatch, hkeq]⟩⟩
      simp only [hne, Bool.false_eq_true, if_false] at hxin
      rcases List.mem_map.mp hxin with ⟨rr2, -, hx2⟩
      rw [← hx2]
      simp
  · rw [List.all_eq_true]
    constructor
    · intro hall rr hrr
      by_contra hno
      push_neg at hno
      have hq : (! df1.rows.any (fun lr => rowsMatch df1 df2r keyList lr rr)) = true := by
        simp only [Bool.not_eq_true', List.any_eq_false]
        intro lr hlr
        simp only [rowsMatch, decide_eq_true_eq]
        exact hno lr hlr
      have hmem : MRow.mk none (some rr) Tag.right_only ∈
          (df2r.rows.filter
            (fun rr => ! df1.rows.any (fun lr => rowsMatch df1 df2r keyList lr rr))).map
            (fun rr => MRow.mk none (some rr) Tag.right_only) :=
        List.mem_map.mpr ⟨rr, List.mem_filter.mpr ⟨hrr, hq⟩, rfl⟩
      have := hall _ hmem
      simp at this
    · intro hcov x hx
      rcases List.mem_map.mp hx with ⟨rr, hrrf, hx2⟩
      rcases List.mem_filter.mp hrrf with ⟨hrr, hq⟩
      rcases hcov rr hrr with ⟨lr, hlr, hkeq⟩
      exfalso
      have hq' : df1.rows.any (fun lr => rowsMatch df1 df2r keyList lr rr) = false := by
        simpa using hq
      have hany := List.any_eq_false.mp hq' lr hlr
      simp [rowsMatch, hkeq] at hany

/-- Key-tuple equality against the renamed right frame is equivalent to
key-tuple equality of the swapped call: each key column of one side is
read through the permutation the mapping induces. -/
theorem tup_symm (df1 df2 : DF) (m : ColumnMapping)
    (hk : (mkeys m).Nodup) (hv : (mvals m).Nodup)
    (hKV : ∀ k ∈ mkeys m, k ∈ mvals m) (hVK : ∀ v ∈ mvals m, v ∈ mkeys m)
    (lr rr : List Cell) :
    (keyTup df1 (mkeys m) lr = keyTup (rename df2 m) (mkeys m) rr) ↔
      (keyTup df2 (mkeys (invert m)) rr =
        keyTup (rename df1 (invert m)) (mkeys (invert m)) lr) := by
  have hinj : ∀ x y, rn m x = rn m y → x = y := rn_injective hk hv hVK
  have hk2 : (mkeys (invert m)).Nodup := by
    rw [mkeys_invert]
    exact hv
  have hv2 : (mvals (invert m)).Nodup := by
    rw [mvals_invert]
    exact hk
  have hVK2 : ∀ v ∈ mvals (invert m), v ∈ mkeys (invert m) := by
    rw [mkeys_invert, mvals_invert]
    exact hKV
  have hinj2 : ∀ x y, rn (invert m) x = rn (invert m) y → x = y :=
    rn_injective hk2 hv2 hVK2
  unfold keyTup
  rw [List.map_eq_map_iff, List.map_eq_map_iff]
  constructor
  · intro hfwd v hvV
    have hvV' : v ∈ mvals m := by rwa [mkeys_invert] at hvV
    have hvK : v ∈ mkeys m := hVK v hvV'
    have hsig2 : rn (invert m) (rn (invert (invert m)) v) = v := by
      rw [invert_invert]
      exact rn_invert_rn hk hv hvK
    have hidx : idx (rename df1 (invert m)) v = idx df1 (rn (invert (invert m)) v) :=
      idx_rename_eq hinj2 hsig2
    rw [invert_invert] at hidx
    have hsigK : rn m v ∈ mkeys m := hVK _ ((rn_of_mem_keys hk hvK).2)
    have h1 := hfwd (rn m v) hsigK
    have hidx1 : idx (rename df2 m) (rn m v) = idx df2 (rn (invert m) (rn m v)) :=
      idx_rename_eq hinj (by rw [rn_invert_rn hk hv hvK])
    rw [hidx1, rn_invert_rn hk hv hvK] at h1
    show rr.getD (idx df2 v) Cell.missing =
      lr.getD (idx (rename df1 (invert m)) v) Cell.missing
    rw [hidx]
    exact h1.symm
  · intro hbwd k hkK
    have hrr : rn m (rn (invert m) k) = k := (rn_rn_invert hk hv hKV hkK).1
    have hsiginvK : rn (invert m) k ∈ mkeys m := (rn_rn_invert hk hv hKV hkK).2
    have hidx : idx (rename df2 m) k = idx df2 (rn (invert m) k) :=
      idx_rename_eq hinj hrr
    have hvmem : rn (invert m) k ∈ mkeys (invert m) := by
      rw [mkeys_invert]
      exact hKV _ hsiginvK
    have h1 := hbwd (rn (invert m) k) hvmem
    have hidx2 : idx (rename df1 (invert m)) (rn (invert m) k) =
        idx df1 (rn (invert (invert m)) (rn (invert m) k)) := by
      apply idx_rename_eq hinj2
      rw [invert_invert, hrr]
    rw [hidx2, invert_invert, hrr] at h1
    show lr.getD (idx df1 k) Cell.missing =
      rr.getD (idx (rename df2 m) k) Cell.missing
    rw [hidx]
    exact h1.symm

/-- The two coverage conditions of the forward call are together
equivalent to those of the swapped call with the inverted mapping. -/
theorem covered_symm (df1 df2 : DF) (m : ColumnMapping)
    (hk : (mkeys m).Nodup) (hv : (mvals m).Nodup)
    (hKV : ∀ k ∈ mkeys m, k ∈ mvals m) (hVK : ∀ v ∈ mvals m, v ∈ mkeys m) :
    (leftCovered df1 (rename df2 m) (mkeys m) ∧
      rightCovered df1 (rename df2 m) (mkeys m)) ↔
    (leftCovered df2 (rename df1 (invert m)) (mkeys (invert m)) ∧
      rightCovered df2 (rename df1 (invert m)) (mkeys (invert m))) := by
  have htup := tup_symm df1 df2 m hk hv hKV hVK
  unfold leftCovered rightCovered
  constructor
  · rintro ⟨hA, hB⟩
    constructor
    · intro rr hrr
      rcases hB rr hrr with ⟨lr, hlr, hkeq⟩
      exact ⟨lr, hlr, (htup lr rr).mp hkeq⟩
    · intro lr hlr
      rcases hA lr hlr with ⟨rr, hrr, hkeq⟩
      exact ⟨rr, hrr, (htup lr rr).mp hkeq⟩
  · rintro ⟨hA, hB⟩
    constructor
    · intro lr hlr
      rcases hB lr hlr with ⟨rr, hrr, hkeq⟩
      exact ⟨rr, hrr, (htup lr rr).mpr hkeq⟩
    · intro rr hrr
      rcases hA rr hrr with ⟨lr, hlr, hkeq⟩
      exact ⟨lr, hlr, (htup lr rr).mpr hkeq⟩

/-- C9 (confirmed).  Swapping the two datasets and inverting the mapping
leaves the identical flag unchanged, whatever file names label the two
calls.  The hypotheses record that the mapping is a dict with distinct
values under inversion (distinct keys, distinct values) and that the
frames carry distinct column labels, as frames loaded by read_csv do.
When the merge fails the swapped merge fails as well (both flags false);
when it succeeds the mapping is a permutation of a common set of key
names and the coverage conditions transfer through it. -/
theorem c9_identical_symmetric (df1 df2 : DF) (m : ColumnMapping)
    (lf rf lf2 rf2 : String) (hk : (mkeys m).Nodup) (hv : (mvals m).Nodup)
    (_hc1 : df1.cols.Nodup) (_hc2 : df2.cols.Nodup) :
    (compare_datasets df1 df2 m lf rf).1 =
      (compare_datasets df2 df1 (invert m) lf2 rf2).1 := by
  have hk2 : (mkeys (invert m)).Nodup := by
    rw [mkeys_invert]
    exact hv
  have hv2 : (mvals (invert m)).Nodup := by
    rw [mvals_invert]
    exact hk
  have hBool : ∀ (a b : Bool), (a = true ↔ b = true) → a = b := by decide
  by_cases hok : fwdOk df1 df2 m
  · have hperm := (fwdOk_iff_permOk hk hv).mp hok
    have hperm2 : permOk df2 df1 (invert m) := permOk_symm hperm
    have hok2 : fwdOk df2 df1 (invert m) := (fwdOk_iff_permOk hk2 hv2).mpr hperm2
    have hm1 := mergeCore_eq_some_of hok
    have hm2 := mergeCore_eq_some_of hok2
    have e1 := identical_iff df1 df2 m lf rf _ hm1
    have e2 := identical_iff df2 df1 (invert m) lf2 rf2 _ hm2
    obtain ⟨-, -, -, hKV, hVK⟩ := hperm
    apply hBool
    rw [e1, e2, allBoth_join_iff, allBoth_join_iff]
    constructor
    · rintro ⟨hcov, hlen⟩
      exact ⟨(covered_symm df1 df2 m hk hv hKV hVK).mp hcov, hlen.symm⟩
    · rintro ⟨hcov, hlen⟩
      exact ⟨(covered_symm df1 df2 m hk hv hKV hVK).mpr hcov, hlen.symm⟩
  · have hnot2 : ¬ fwdOk df2 df1 (invert m) := by
      intro hok2
      apply hok
      have hperm2 := (fwdOk_iff_permOk hk2 hv2).mp hok2
      have hperm := permOk_symm hperm2
      rw [invert_invert] at hperm
      exact (fwdOk_iff_permOk hk hv).mpr hperm
    rw [compare_none df1 df2 m lf rf (mergeCore_eq_none_of hok),
        compare_none df2 df1 (invert m) lf2 rf2 (mergeCore_eq_none_of hnot2)]

/-- C9 (witness): a one-column pair of frames under the mapping p to u
and its inversion; the hypotheses are discharged by computation. -/
theorem c9_witness :
    (compare_datasets (DF.mk ["p"] [[Cell.num 1]]) (DF.mk ["u"] [[Cell.num 2]])
        [("p", "u")] "L" "R").1 =
      (compare_datasets (DF.mk ["u"] [[Cell.num 2]]) (DF.mk ["p"] [[Cell.num 1]])
        (invert [("p", "u")]) "R" "L").1 :=
  c9_identical_symmetric (DF.mk ["p"] [[Cell.num 1]]) (DF.mk ["u"] [[Cell.num 2]])
    [("p", "u")] "L" "R" "R" "L" (by decide) (by decide) (by decide) (by decide)

end DatasetDiff
